import Mathlib

/-!
Shallow embedding of the autoversion library (a Python module that resolves
the version of the requesting module through an override check, an installed
distribution fallback walk, and a git describe provider with memoization,
plus a version-string-to-tuple parser).  Each definition mirrors one Python
function of the source file; external effects (environment variables, the
distribution registry, subprocess output) are passed in as explicit
environments, and invocation counts are returned so that claims about the
number of external calls can be stated.
-/

namespace AV

/-- Elements of a parsed version tuple: Python ints or strings. -/
inductive VTok where
  | num : Nat → VTok
  | str : String → VTok
  deriving DecidableEq

/-- The two exception kinds the git provider can raise:
subprocess.CalledProcessError (nonzero exit) and OSError (tool missing). -/
inductive GitErr where
  | calledProcessError
  | osError
  deriving DecidableEq

/-- Exceptions of the resolver layer: pkg_resources.DistributionNotFound,
or a git provider exception propagating through. -/
inductive PyErr where
  | distNotFound
  | git : GitErr → PyErr
  deriving DecidableEq

/-- External command invocation counters for the git provider. -/
structure Counts where
  describes : Nat
  branches : Nat
  deriving DecidableEq

/-- Counters for the resolver layer: metadata lookups plus git commands. -/
structure RCounts where
  lookups : Nat
  describes : Nat
  branches : Nat
  deriving DecidableEq

/-- The memoization dictionary of Git.get_version: path to descriptor. -/
abbrev Memo := List (String × String)

/-- Dictionary lookup, mirroring the Python expression path in memo. -/
def mlookup (path : String) : Memo → Option String
  | [] => none
  | (k, v) :: rest => if k = path then some v else mlookup path rest

/-- Dictionary assignment, mirroring memo[path] = v. -/
def minsert (path v : String) : Memo → Memo
  | [] => [(path, v)]
  | (k, w) :: rest =>
    if k = path then (k, v) :: rest else (k, w) :: minsert path v rest

/-- A dictionary has at most one entry per key. -/
def keysNodup (m : Memo) : Prop := (m.map Prod.fst).Nodup

/-- Characters removed by the Python str.strip default (ASCII whitespace). -/
def pyIsSpace (c : Char) : Bool :=
  c = ' ' || c = '\t' || c = '\n' || c = '\r' || c = '\x0b' || c = '\x0c'

/-- Python str.strip: drop whitespace from both ends. -/
def pstrip (s : String) : String :=
  String.mk (((s.data.dropWhile pyIsSpace).reverse.dropWhile pyIsSpace).reverse)

/-- Attempt to match the regex -[0-9]+- at the head of the character list.
On a match, return the digit group and the characters after the whole match
(the trailing dash is consumed by the match). -/
def markerAt : List Char → Option (List Char × List Char)
  | [] => none
  | c :: rest =>
    if c = '-' then
      let ds := rest.takeWhile Char.isDigit
      match rest.dropWhile Char.isDigit with
      | '-' :: tail => if ds.isEmpty then none else some (ds, tail)
      | _ => none
    else none

/-- re.search for the distance marker -[0-9]+- : true when a match exists
at some position. -/
def hasMarker : List Char → Bool
  | [] => false
  | c :: rest => (markerAt (c :: rest)).isSome || hasMarker rest

/-- re.subn with count 1: replace the leftmost -[0-9]+- match with
-branch-digits- and leave the rest of the string untouched. -/
def subnFirst (branch : List Char) : List Char → List Char
  | [] => []
  | c :: rest =>
    match markerAt (c :: rest) with
    | some (ds, tail) => '-' :: (branch ++ '-' :: (ds ++ '-' :: tail))
    | none => c :: subnFirst branch rest

/-- Raw output of the two external git commands for each path: the describe
command and the branch command, each either text or a raised exception. -/
structure GitEnv where
  describeOut : String → Except GitErr String
  branchOut : String → Except GitErr String

namespace Git

/-- Git.get_branch: run the branch command, strip and decode its output. -/
def get_branch (genv : GitEnv) (path : String) : Except GitErr String :=
  match genv.branchOut path with
  | .ok raw => .ok (pstrip raw)
  | .error e => .error e

/-- Git.get_version: if path is not memoized, run describe, strip, store in
the memo, and if the output has a distance marker run get_branch and replace
the first -n- with -branch-n-, restoring the rewritten value into the memo.
Returns the result (or exception), the updated memo, and command counts. -/
def get_version (genv : GitEnv) (path : String) (memo : Memo) :
    Except GitErr String × Memo × Counts :=
  match mlookup path memo with
  | some v => (.ok v, memo, ⟨0, 0⟩)
  | none =>
    match genv.describeOut path with
    | .error e => (.error e, memo, ⟨1, 0⟩)
    | .ok raw =>
      let s := pstrip raw
      let memo1 := minsert path s memo
      if hasMarker s.data then
        match get_branch genv path with
        | .error e => (.error e, memo1, ⟨1, 1⟩)
        | .ok branch =>
          let s2 : String := String.mk (subnFirst branch.data s.data)
          (.ok s2, minsert path s2 memo1, ⟨1, 1⟩)
      else (.ok s, memo1, ⟨1, 0⟩)

/-- Git.is_repo_instance: true when get_version succeeds; the two expected
exception kinds are caught and yield false. -/
def is_repo_instance (genv : GitEnv) (path : String) (memo : Memo) :
    Bool × Memo × Counts :=
  match get_version genv path memo with
  | (.ok _, m, c) => (true, m, c)
  | (.error .calledProcessError, m, c) => (false, m, c)
  | (.error .osError, m, c) => (false, m, c)

end Git

/-- A record of the external distribution registry. -/
structure Distribution where
  location : String
  version : String

/-- The external registry: get_distribution either finds a record or raises
DistributionNotFound (modelled as none). -/
structure DistEnv where
  getDistribution : String → Option Distribution

/-- An execution frame: the module name when determinable, plus the code
file name and line number. -/
structure Frame where
  moduleName : Option String
  filename : String
  lineno : Nat

/-- getversion: look the package up (one metadata lookup), classify its
location with Git.is_repo_instance, and return either the live repository
description or the recorded metadata version. -/
def getversion (denv : DistEnv) (genv : GitEnv) (package : String)
    (memo : Memo) : Except PyErr String × Memo × RCounts :=
  match denv.getDistribution package with
  | none => (.error .distNotFound, memo, ⟨1, 0, 0⟩)
  | some dist =>
    let r := Git.is_repo_instance genv dist.location memo
    if r.1 then
      match Git.get_version genv dist.location r.2.1 with
      | (.ok v, m2, c2) =>
        (.ok v, m2, ⟨1, r.2.2.describes + c2.describes,
          r.2.2.branches + c2.branches⟩)
      | (.error e, m2, c2) =>
        (.error (.git e), m2, ⟨1, r.2.2.describes + c2.describes,
          r.2.2.branches + c2.branches⟩)
    else (.ok dist.version, r.2.1, ⟨1, r.2.2.describes, r.2.2.branches⟩)

/-- Whether the name still contains a dot (the loop continuation test:
partition found a separator). -/
def hasDot (s : String) : Bool := '.' ∈ s.data

/-- The part of the name to the left of the first dot, mirroring
name.partition of the dot string, first component. -/
def truncName (s : String) : String :=
  String.mk (s.data.takeWhile (fun c => c ≠ '.'))

/-- Number of dot separated components of a name. -/
def numComponents (s : String) : Nat := s.data.count '.' + 1

/-- The sequence of names the fallback loop would try, fuelled variant
(structural recursion; the wrapper supplies sufficient fuel). -/
def walkAttemptsF (found : String → Bool) : Nat → String → List String
  | 0, _ => []
  | fuel + 1, name =>
    name :: (if found name then []
      else if hasDot name then walkAttemptsF found fuel (truncName name)
      else [])

/-- The sequence of names the fallback loop tries, most specific first. -/
def walkAttempts (found : String → Bool) (name : String) : List String :=
  walkAttemptsF found (name.length + 1) name

/-- The while loop of version_from_frame, fuelled variant: try the metadata
lookup for the current name; on success delegate to getversion (which does
its own lookup again); on DistributionNotFound truncate at the first dot and
retry; when no dot remains, fall out of the loop returning none. -/
def fallbackLoopF (denv : DistEnv) (genv : GitEnv) :
    Nat → String → Memo → Except PyErr (Option String) × Memo × RCounts
  | 0, _, memo => (.ok none, memo, ⟨0, 0, 0⟩)
  | fuel + 1, name, memo =>
    match denv.getDistribution name with
    | some _ =>
      let r := getversion denv genv name memo
      (r.1.map some, r.2.1,
        ⟨r.2.2.lookups + 1, r.2.2.describes, r.2.2.branches⟩)
    | none =>
      if hasDot name then
        let r := fallbackLoopF denv genv fuel (truncName name) memo
        (r.1, r.2.1, ⟨r.2.2.lookups + 1, r.2.2.describes, r.2.2.branches⟩)
      else (.ok none, memo, ⟨1, 0, 0⟩)

/-- The while loop of version_from_frame; each iteration strictly shortens
the name, so fuel equal to the name length plus one always suffices. -/
def fallbackLoop (denv : DistEnv) (genv : GitEnv) (name : String)
    (memo : Memo) : Except PyErr (Option String) × Memo × RCounts :=
  fallbackLoopF denv genv (name.length + 1) name memo

/-- Python str.upper on ASCII text (Char.toUpper on each character). -/
def pyUpper (s : String) : String := String.mk (s.data.map Char.toUpper)

/-- version_from_frame: with no module, return the synthetic unknown
descriptor; otherwise check the AUTOVERSION_ environment override; otherwise
run the fallback loop.  The ok none outcome models the Python return of
None; counts record metadata lookups and external git command invocations. -/
def version_from_frame (f : Frame) (osenv : String → Option String)
    (denv : DistEnv) (genv : GitEnv) (memo : Memo) :
    Except PyErr (Option String) × Memo × RCounts :=
  match f.moduleName with
  | none =>
    (.ok (some ("<unknown from " ++ f.filename ++ ":"
      ++ toString f.lineno ++ ">")), memo, ⟨0, 0, 0⟩)
  | some module_name =>
    match osenv ("AUTOVERSION_" ++ pyUpper module_name) with
    | some override => (.ok (some override), memo, ⟨0, 0, 0⟩)
    | none => fallbackLoop denv genv module_name memo

/-- Python str.isdigit for ASCII text: nonempty and all digit characters. -/
def pyIsdigit (s : String) : Bool :=
  !s.data.isEmpty && s.data.all Char.isDigit

/-- Numeric value of a digit string, as int() computes it. -/
def digitsVal (l : List Char) : Nat :=
  l.foldl (fun a c => 10 * a + (c.toNat - 48)) 0

/-- try_fix_num: a numeric token becomes an int with leading zeros stripped
first (an all zero token becomes the int 0); any other token is returned
unchanged. -/
def try_fix_num (n : String) : VTok :=
  if !pyIsdigit n then .str n
  else
    let l1 := if n.data.head? = some '0'
      then n.data.dropWhile (fun c => c = '0') else n.data
    let l2 := if l1.isEmpty then ['0'] else l1
    .num (digitsVal l2)

/-- re.split on dots and dashes with the dash captured: dots split and are
discarded, each dash splits and is kept as a separator token.  Empty pieces
are produced exactly where the regex split produces them; the caller filters
them out just as the source comprehension does. -/
def splitTokens : List Char → List Char → List String
  | [], cur => [String.mk cur.reverse]
  | c :: rest, cur =>
    if c = '.' then String.mk cur.reverse :: splitTokens rest []
    else if c = '-' then
      String.mk cur.reverse :: "-" :: splitTokens rest []
    else splitTokens rest (c :: cur)

/-- The is_dash predicate of the source, on normalized tokens. -/
def isDash : VTok → Bool
  | .str s => s = "-"
  | .num _ => false

/-- itertools.groupby keyed by isDash: maximal runs of elements with equal
key, in order, each tagged with its key. -/
def pyGroupby : List VTok → List (Bool × List VTok)
  | [] => []
  | t :: ts =>
    match pyGroupby ts with
    | [] => [(isDash t, [t])]
    | (k, g) :: rest =>
      if k = isDash t then (k, t :: g) :: rest
      else (isDash t, [t]) :: (k, g) :: rest

/-- Python str.startswith. -/
def pyStartswith (s pre : String) : Bool := pre.data.isPrefixOf s.data

/-- tupleize_version: None and strings starting with the unknown sentinel
map to the fixed unknown tuple; otherwise split on dots and dashes, keep the
dashes, normalize each nonempty token, group by dash runs and drop the dash
groups. -/
def tupleize_version : Option String → List (List VTok)
  | none => [[.str "unknown"]]
  | some version =>
    if pyStartswith version "<unknown" then [[.str "unknown"]]
    else
      let split := splitTokens version.data []
      let parsed := (split.filter (fun x => x ≠ "")).map try_fix_num
      ((pyGroupby parsed).filter (fun p => !p.1)).map Prod.snd

/-- A registry in which no distribution is installed. -/
def denvNone : DistEnv := ⟨fun _ => none⟩

/-- An empty process environment. -/
def osenvNone : String → Option String := fun _ => none

/-- A process environment holding one AUTOVERSION_ override. -/
def osenvOverride : String → Option String :=
  fun k => if k = "AUTOVERSION_PKG.MOD" then some "9.9" else none

/-- A git environment whose commands always fail with nonzero exit. -/
def genvFail : GitEnv :=
  ⟨fun _ => .error .calledProcessError, fun _ => .error .calledProcessError⟩

/-- A git environment describing a tagged commit with no distance marker. -/
def genvPlain : GitEnv := ⟨fun _ => .ok "v1.2.3", fun _ => .ok "main"⟩

/-- A git environment describing a commit four commits past a tag, on the
branch feature-x. -/
def genvTagged : GitEnv :=
  ⟨fun _ => .ok "v1.2.3-4-gabcdef", fun _ => .ok "feature-x"⟩

/-- A git environment whose describe output has two distance markers. -/
def genvTwoMarkers : GitEnv := ⟨fun _ => .ok "a-1-b-2-c", fun _ => .ok "BR"⟩

/-- A frame with no associated module. -/
def frameNoModule : Frame := ⟨none, "repl.py", 7⟩

/-- A frame whose module has three dot separated components. -/
def frameABC : Frame := ⟨some "a.b.c", "f.py", 1⟩

/-- A frame whose module has an environment override installed. -/
def framePkg : Frame := ⟨some "pkg.mod", "m.py", 3⟩

deriving instance DecidableEq for Except

/-! ### Dictionary lemmas -/

theorem mlookup_minsert_self (p v : String) (m : Memo) :
    mlookup p (minsert p v m) = some v := by
  induction m with
  | nil => simp [minsert, mlookup]
  | cons kv t ih =>
    obtain ⟨k, w⟩ := kv
    by_cases hk : k = p
    · simp [minsert, mlookup, hk]
    · simp [minsert, mlookup, hk, ih]

theorem keys_minsert (p v : String) (m : Memo) :
    (minsert p v m).map Prod.fst =
      if p ∈ m.map Prod.fst then m.map Prod.fst
      else m.map Prod.fst ++ [p] := by
  induction m with
  | nil => simp [minsert]
  | cons kv t ih =>
    obtain ⟨k, w⟩ := kv
    by_cases hk : k = p
    · subst hk
      simp [minsert]
    · have hk2 : p ≠ k := fun h2 => hk h2.symm
      by_cases hp : p ∈ t.map Prod.fst
      · simp [minsert, hk, ih, hp, hk2]
      · simp [minsert, hk, ih, hp, hk2]

theorem keysNodup_minsert (p v : String) (m : Memo) (h : keysNodup m) :
    keysNodup (minsert p v m) := by
  rw [keysNodup, keys_minsert]
  split_ifs with hp
  · exact h
  · refine List.Nodup.append h (List.nodup_singleton p) ?_
    intro a ha hb
    rw [List.mem_singleton] at hb
    subst hb
    exact hp ha

/-! ### Claims about the git provider -/

/-- C5: is_repo_instance returns true exactly when get_version succeeds; a
nonzero exit (CalledProcessError) and an unavailable tool (OSError) both
make it return false rather than raising, and no other exception kind
exists to propagate from it. -/
theorem C5_detect_iff_describe (genv : GitEnv) (p : String) (memo : Memo) :
    ((Git.is_repo_instance genv p memo).1 = true
      ↔ (Git.get_version genv p memo).1.isOk = true)
    ∧ ∀ e, (Git.get_version genv p memo).1 = .error e →
        (Git.is_repo_instance genv p memo).1 = false := by
  rcases hr : Git.get_version genv p memo with ⟨res, m, c⟩
  cases res with
  | ok v => simp [Git.is_repo_instance, hr, Except.isOk, Except.toBool]
  | error e => cases e <;> simp [Git.is_repo_instance, hr, Except.isOk, Except.toBool]

theorem C5_detect_iff_describe_witness :
    (Git.is_repo_instance genvFail "p" []).1 = false :=
  (C5_detect_iff_describe genvFail "p" []).2 .calledProcessError rfl

/-- C2 counterexample: on describe output v1.2.3-4-gabcdef with branch
feature-x the code does not produce the claimed v1.2.3-4-feature-x-gabcdef
(the branch is inserted before the distance count, not after it). -/
theorem C2_cex :
    (Git.get_version genvTagged "p" []).1
      ≠ Except.ok "v1.2.3-4-feature-x-gabcdef" := by decide

/-- C2 amended: when the raw describe output contains a distance marker,
get_version rewrites it by inserting the branch name before the digits:
v1.2.3-4-gabcdef on branch feature-x becomes v1.2.3-feature-x-4-gabcdef. -/
theorem C2_branch_injection (genv : GitEnv) (p : String) (memo : Memo)
    (hm : mlookup p memo = none)
    (hd : genv.describeOut p = .ok "v1.2.3-4-gabcdef")
    (hb : genv.branchOut p = .ok "feature-x") :
    (Git.get_version genv p memo).1 = .ok "v1.2.3-feature-x-4-gabcdef" := by
  have hmk : hasMarker (pstrip "v1.2.3-4-gabcdef").data = true := by decide
  simp [Git.get_version, hm, hd, Git.get_branch, hb, hmk]
  decide

theorem C2_branch_injection_witness :
    (Git.get_version genvTagged "p" []).1
      = .ok "v1.2.3-feature-x-4-gabcdef" :=
  C2_branch_injection genvTagged "p" [] rfl rfl rfl

/-- C9: the rewrite touches at most the first distance marker: an output
with no marker is returned stripped and unmodified with no branch command
invoked, and an output with two markers has only the first one rewritten. -/
theorem C9_first_marker_only :
    (∀ genv p memo raw, mlookup p memo = none →
      genv.describeOut p = .ok raw → hasMarker (pstrip raw).data = false →
      Git.get_version genv p memo
        = (.ok (pstrip raw), minsert p (pstrip raw) memo, ⟨1, 0⟩))
    ∧ (∀ genv p memo, mlookup p memo = none →
      genv.describeOut p = .ok "a-1-b-2-c" → genv.branchOut p = .ok "BR" →
      (Git.get_version genv p memo).1 = .ok "a-BR-1-b-2-c") := by
  constructor
  · intro genv p memo raw hm hd hmk
    simp [Git.get_version, hm, hd, hmk]
  · intro genv p memo hm hd hb
    have hmk : hasMarker (pstrip "a-1-b-2-c").data = true := by decide
    simp [Git.get_version, hm, hd, Git.get_branch, hb, hmk]
    decide

theorem C9_first_marker_only_witness :
    Git.get_version genvPlain "p" []
      = (.ok (pstrip "v1.2.3"), minsert "p" (pstrip "v1.2.3") [], ⟨1, 0⟩)
    ∧ (Git.get_version genvTwoMarkers "p" []).1 = .ok "a-BR-1-b-2-c" :=
  ⟨C9_first_marker_only.1 genvPlain "p" [] "v1.2.3" rfl rfl (by decide),
   C9_first_marker_only.2 genvTwoMarkers "p" [] rfl rfl rfl⟩

/-- C4 counterexample: for a describe output with no distance marker the
branch command is never invoked, so two calls for the same path make zero
branch invocations, not exactly one as claimed. -/
theorem C4_cex :
    (Git.get_version genvPlain "p" []).1 = .ok "v1.2.3"
    ∧ ((Git.get_version genvPlain "p" []).2.2.branches
        + (Git.get_version genvPlain "p"
            (Git.get_version genvPlain "p" []).2.1).2.2.branches) ≠ 1 :=
  ⟨rfl, by decide⟩

/-- C4 amended: a memoized path is answered from the cache with no external
command; a fresh successful call runs describe exactly once and the branch
command exactly once when the stripped output has a distance marker and
zero times otherwise, and a repeated call returns the same result with zero
commands; the cache keeps at most one entry per path. -/
theorem C4_memoization :
    (∀ genv p memo d, mlookup p memo = some d →
      Git.get_version genv p memo = (.ok d, memo, ⟨0, 0⟩))
    ∧ (∀ genv p memo raw, mlookup p memo = none →
        genv.describeOut p = .ok raw →
        ((Git.get_version genv p memo).1.isOk = true →
          Git.get_version genv p (Git.get_version genv p memo).2.1
            = ((Git.get_version genv p memo).1,
                (Git.get_version genv p memo).2.1, ⟨0, 0⟩))
        ∧ (Git.get_version genv p memo).2.2
            = ⟨1, if hasMarker (pstrip raw).data then 1 else 0⟩)
    ∧ (∀ genv p memo, keysNodup memo →
        keysNodup (Git.get_version genv p memo).2.1) := by
  refine ⟨?_, ?_, ?_⟩
  · intro genv p memo d h
    simp [Git.get_version, h]
  · intro genv p memo raw hm hd
    by_cases hmk : hasMarker (pstrip raw).data
    · cases hb : Git.get_branch genv p with
      | ok branch =>
        simp [Git.get_version, hm, hd, hmk, hb, mlookup_minsert_self]
      | error e =>
        simp [Git.get_version, hm, hd, hmk, hb, Except.isOk, Except.toBool]
    · simp [Git.get_version, hm, hd, hmk, mlookup_minsert_self]
  · intro genv p memo h
    cases hml : mlookup p memo with
    | some d => simpa [Git.get_version, hml] using h
    | none =>
      cases hdo : genv.describeOut p with
      | error e => simpa [Git.get_version, hml, hdo] using h
      | ok raw =>
        by_cases hmk : hasMarker (pstrip raw).data
        · cases hb : Git.get_branch genv p with
          | ok branch =>
            simp [Git.get_version, hml, hdo, hmk, hb]
            exact keysNodup_minsert _ _ _ (keysNodup_minsert _ _ _ h)
          | error e =>
            simp [Git.get_version, hml, hdo, hmk, hb]
            exact keysNodup_minsert _ _ _ h
        · simp [Git.get_version, hml, hdo, hmk]
          exact keysNodup_minsert _ _ _ h


/-! ### Lemmas about the tuple parser -/

theorem digitsVal_cons_zero (t : List Char) :
    digitsVal ('0' :: t) = digitsVal t := rfl

theorem digitsVal_dropZeros (l : List Char) :
    digitsVal (l.dropWhile (fun c => c = '0')) = digitsVal l := by
  induction l with
  | nil => rfl
  | cons c t ih =>
    rw [List.dropWhile_cons]
    by_cases hc : c = '0'
    · subst hc
      simp [ih, digitsVal_cons_zero]
    · have hfc : ((fun c => decide (c = '0')) c) = false := by simp [hc]
      simp [hfc]

theorem digitsVal_all_zero (l : List Char)
    (h : l.all (fun c => c = '0') = true) : digitsVal l = 0 := by
  induction l with
  | nil => rfl
  | cons c t ih =>
    rw [List.all_cons, Bool.and_eq_true] at h
    have hc : c = '0' := by simpa using h.1
    subst hc
    rw [digitsVal_cons_zero]
    exact ih h.2

theorem try_fix_num_str (s : String) (h : pyIsdigit s = false) :
    try_fix_num s = .str s := by
  simp [try_fix_num, h]

theorem try_fix_num_num (s : String) (h : pyIsdigit s = true) :
    try_fix_num s = .num (digitsVal s.data) := by
  rw [try_fix_num]
  by_cases hh : s.data.head? = some '0'
  · by_cases he : (s.data.dropWhile (fun c => c = '0')).isEmpty = true
    · have hl1 : s.data.dropWhile (fun c => c = '0') = [] := by
        simpa [List.isEmpty_iff] using he
      have hv : digitsVal s.data = 0 := by
        rw [← digitsVal_dropZeros s.data, hl1]
        rfl
      have h0 : digitsVal ['0'] = 0 := rfl
      simp [h, hh, he, hv, h0]
    · simp [h, hh, he, digitsVal_dropZeros]
  · have hne : s.data.isEmpty = false := by
      rw [pyIsdigit, Bool.and_eq_true] at h
      simpa using h.1
    simp [h, hh, hne]

theorem isPrefixOfAppendLemma (l l1 l2 : List Char)
    (h : l.isPrefixOf l1 = true) : l.isPrefixOf (l1 ++ l2) = true := by
  induction l generalizing l1 with
  | nil => simp [List.isPrefixOf]
  | cons a as ih =>
    cases l1 with
    | nil => simp [List.isPrefixOf] at h
    | cons b bs =>
      rw [List.cons_append]
      simp only [List.isPrefixOf, Bool.and_eq_true] at h ⊢
      exact ⟨h.1, ih bs h.2⟩

theorem unknown_pre (file : String) (line : Nat) :
    pyStartswith ("<unknown from " ++ file ++ ":" ++ toString line ++ ">")
      "<unknown" = true := by
  rw [pyStartswith]
  have hd : ("<unknown from " ++ file ++ ":" ++ toString line ++ ">").data
      = "<unknown from ".data ++ (file.data ++ ((":").data
        ++ ((toString line).data ++ (">").data))) := by
    simp [String.data_append]
  rw [hd]
  exact isPrefixOfAppendLemma _ _ _ (by decide)

theorem pyGroupby_group_ne_nil (l : List VTok) :
    ∀ p ∈ pyGroupby l, p.2 ≠ [] := by
  induction l with
  | nil =>
    intro p h
    cases h
  | cons t ts ih =>
    intro p h
    cases hg : pyGroupby ts with
    | nil =>
      have hgt : pyGroupby (t :: ts) = [(isDash t, [t])] := by
        rw [pyGroupby, hg]
      rw [hgt] at h
      rcases List.mem_singleton.mp h with rfl
      simp
    | cons q rest =>
      obtain ⟨k, g⟩ := q
      have hgt : pyGroupby (t :: ts)
          = if k = isDash t then (k, t :: g) :: rest
            else (isDash t, [t]) :: (k, g) :: rest := by
        rw [pyGroupby, hg]
      rw [hgt] at h
      by_cases hk : k = isDash t
      · rw [if_pos hk] at h
        rcases List.mem_cons.mp h with h1 | h1
        · subst h1
          simp
        · exact ih p (by rw [hg]; exact List.mem_cons_of_mem _ h1)
      · rw [if_neg hk] at h
        rcases List.mem_cons.mp h with h1 | h1
        · subst h1
          simp
        · exact ih p (by rw [hg]; exact h1)

theorem pyGroupby_key_true (l : List VTok)
    (hall : ∀ t ∈ l, isDash t = true) : ∀ p ∈ pyGroupby l, p.1 = true := by
  induction l with
  | nil =>
    intro p h
    cases h
  | cons t ts ih =>
    intro p h
    have ht : isDash t = true := hall t (List.mem_cons_self t ts)
    have hts : ∀ u ∈ ts, isDash u = true :=
      fun u hu => hall u (List.mem_cons_of_mem _ hu)
    cases hg : pyGroupby ts with
    | nil =>
      have hgt : pyGroupby (t :: ts) = [(isDash t, [t])] := by
        rw [pyGroupby, hg]
      rw [hgt] at h
      rcases List.mem_singleton.mp h with rfl
      exact ht
    | cons q rest =>
      obtain ⟨k, g⟩ := q
      have hgt : pyGroupby (t :: ts)
          = if k = isDash t then (k, t :: g) :: rest
            else (isDash t, [t]) :: (k, g) :: rest := by
        rw [pyGroupby, hg]
      rw [hgt] at h
      by_cases hk : k = isDash t
      · rw [if_pos hk] at h
        rcases List.mem_cons.mp h with h1 | h1
        · subst h1
          rw [hk]
          exact ht
        · exact ih hts p (by rw [hg]; exact List.mem_cons_of_mem _ h1)
      · rw [if_neg hk] at h
        rcases List.mem_cons.mp h with h1 | h1
        · subst h1
          exact ht
        · exact ih hts p (by rw [hg]; exact h1)

theorem splitTokens_sep (l : List Char)
    (hall : ∀ c ∈ l, c = '.' ∨ c = '-') :
    ∀ t ∈ splitTokens l [], t = "" ∨ t = "-" := by
  induction l with
  | nil =>
    intro t h
    have heq : splitTokens ([] : List Char) [] = [""] := rfl
    rw [heq] at h
    rcases List.mem_singleton.mp h with rfl
    left
    rfl
  | cons c rest ih =>
    intro t h
    have hrest : ∀ a ∈ rest, a = '.' ∨ a = '-' :=
      fun a ha => hall a (List.mem_cons_of_mem _ ha)
    rcases hall c (List.mem_cons_self c rest) with hc | hc
    · subst hc
      have heq : splitTokens ('.' :: rest) [] = "" :: splitTokens rest [] :=
        rfl
      rw [heq] at h
      rcases List.mem_cons.mp h with h1 | h1
      · subst h1
        left
        rfl
      · exact ih hrest t h1
    · subst hc
      have heq : splitTokens ('-' :: rest) []
          = "" :: "-" :: splitTokens rest [] := rfl
      rw [heq] at h
      rcases List.mem_cons.mp h with h1 | h1
      · subst h1
        left
        rfl
      · rcases List.mem_cons.mp h1 with h2 | h2
        · subst h2
          right
          rfl
        · exact ih hrest t h2

/-! ### Claims about the tuple parser and the unknown sentinel -/

/-! ### Lemmas about truncation and the fallback walk -/

theorem pred_of_mem_takeWhile (p : Char → Bool) (a : Char) :
    ∀ l : List Char, a ∈ l.takeWhile p → p a = true := by
  intro l
  induction l with
  | nil => simp
  | cons c t ih =>
    rw [List.takeWhile_cons]
    by_cases hc : p c = true
    · simp only [hc, if_true, List.mem_cons]
      rintro (rfl | h)
      · exact hc
      · exact ih h
    · simp [hc]

theorem length_takeWhile_lt (p : Char → Bool) (a : Char) (l : List Char)
    (ha : p a = false) (hm : a ∈ l) :
    (l.takeWhile p).length < l.length := by
  induction l with
  | nil => cases hm
  | cons c t ih =>
    rw [List.takeWhile_cons]
    by_cases hc : p c = true
    · have hat : a ∈ t := by
        rcases List.mem_cons.mp hm with h | h
        · subst h
          rw [hc] at ha
          cases ha
        · exact h
      simp only [hc, if_true, List.length_cons]
      exact Nat.succ_lt_succ (ih hat)
    · simp [hc]

theorem truncName_hasDot_false (s : String) : hasDot (truncName s) = false := by
  obtain ⟨l⟩ := s
  rw [hasDot, truncName, decide_eq_false_iff_not]
  intro h
  have hp := pred_of_mem_takeWhile _ '.' l h
  simp at hp

theorem truncName_length_lt (s : String) (h : hasDot s = true) :
    (truncName s).length < s.length := by
  obtain ⟨l⟩ := s
  rw [hasDot, decide_eq_true_eq] at h
  exact length_takeWhile_lt _ '.' l (by simp) h

theorem length_pos_of_hasDot (s : String) (h : hasDot s = true) :
    0 < s.length := by
  obtain ⟨l⟩ := s
  rw [hasDot, decide_eq_true_eq] at h
  cases l with
  | nil => exact absurd h (List.not_mem_nil _)
  | cons c t => exact Nat.succ_pos _

theorem fallbackLoopF_noDot (denv : DistEnv) (genv : GitEnv) (fuel : Nat)
    (name : String) (memo : Memo)
    (hall : ∀ s, denv.getDistribution s = none)
    (hnd : hasDot name = false) (hf : 0 < fuel) :
    fallbackLoopF denv genv fuel name memo = (.ok none, memo, ⟨1, 0, 0⟩) := by
  cases fuel with
  | zero => cases hf
  | succ f => simp [fallbackLoopF, hall, hnd]

theorem walkAttemptsF_noDot (found : String → Bool) (fuel : Nat)
    (name : String) (hnd : hasDot name = false) (hf : 0 < fuel) :
    walkAttemptsF found fuel name = [name] := by
  cases fuel with
  | zero => cases hf
  | succ f => by_cases hfound : found name = true <;>
      simp [walkAttemptsF, hnd, hfound]

theorem walkAttemptsF_succ (found : String → Bool) (fuel : Nat)
    (name : String) :
    walkAttemptsF found (fuel + 1) name
      = name :: (if found name then []
          else if hasDot name then walkAttemptsF found fuel (truncName name)
          else []) := rfl

/-! ### Claims about the fallback resolver -/

/-- C1 counterexample: for the module name a.b.c with three dot separated
components and a registry matching nothing, the loop makes two lookup
attempts (a.b.c, then a), not the claimed three: truncation happens at the
first dot, so a.b is never tried. -/
theorem C1_cex :
    (version_from_frame frameABC osenvNone denvNone genvFail []).1 = .ok none
    ∧ (version_from_frame frameABC osenvNone denvNone genvFail
        []).2.2.lookups = 2
    ∧ walkAttempts (fun s => (denvNone.getDistribution s).isSome) "a.b.c"
        = ["a.b.c", "a"]
    ∧ (2 : Nat) ≠ 3 :=
  ⟨rfl, rfl, rfl, by decide⟩

/-- C1 amended: with no matching distribution for any name, the walk makes
two lookup attempts when the name contains a dot (the full name first, then
the text left of the first dot) and one attempt otherwise, before returning
the ok none result that models no version determinable. -/
theorem C1_fallback_walk (denv : DistEnv) (genv : GitEnv) (name : String)
    (memo : Memo) (hall : ∀ s, denv.getDistribution s = none) :
    fallbackLoop denv genv name memo
      = (.ok none, memo, ⟨if hasDot name then 2 else 1, 0, 0⟩)
    ∧ walkAttempts (fun s => (denv.getDistribution s).isSome) name
      = name :: (if hasDot name then [truncName name] else []) := by
  constructor
  · cases hd : hasDot name with
    | false =>
      rw [fallbackLoop,
        fallbackLoopF_noDot denv genv _ name memo hall hd (Nat.succ_pos _)]
      simp [hd]
    | true =>
      have hlen := length_pos_of_hasDot name hd
      have hrec := fallbackLoopF_noDot denv genv name.length
        (truncName name) memo hall (truncName_hasDot_false name) hlen
      simp [fallbackLoop, fallbackLoopF, hall, hd, hrec]
  · cases hd : hasDot name with
    | false =>
      rw [walkAttempts, walkAttemptsF_noDot
        (fun s => (denv.getDistribution s).isSome) _ name hd (Nat.succ_pos _)]
      simp [hd]
    | true =>
      have hlen := length_pos_of_hasDot name hd
      have hrec := walkAttemptsF_noDot
        (fun s => (denv.getDistribution s).isSome) name.length
        (truncName name) (truncName_hasDot_false name) hlen
      rw [walkAttempts, walkAttemptsF_succ, hrec]
      simp [hall name, hd]

theorem C1_fallback_walk_witness :
    fallbackLoop denvNone genvFail "a.b.c" []
      = (.ok none, [], ⟨if hasDot "a.b.c" then 2 else 1, 0, 0⟩)
    ∧ walkAttempts (fun s => (denvNone.getDistribution s).isSome) "a.b.c"
      = "a.b.c" :: (if hasDot "a.b.c" then [truncName "a.b.c"] else []) :=
  C1_fallback_walk denvNone genvFail "a.b.c" [] (fun _ => rfl)

/-- C7: when the AUTOVERSION_ override variable for the module name is set,
version_from_frame returns its value verbatim with zero metadata lookups
and zero external command invocations. -/
theorem C7_override (f : Frame) (osenv : String → Option String)
    (denv : DistEnv) (genv : GitEnv) (memo : Memo) (name ov : String)
    (hm : f.moduleName = some name)
    (ho : osenv ("AUTOVERSION_" ++ pyUpper name) = some ov) :
    version_from_frame f osenv denv genv memo
      = (.ok (some ov), memo, ⟨0, 0, 0⟩) := by
  simp [version_from_frame, hm, ho]

theorem C7_override_witness :
    version_from_frame framePkg osenvOverride denvNone genvFail []
      = (.ok (some "9.9"), [], ⟨0, 0, 0⟩) :=
  C7_override framePkg osenvOverride denvNone genvFail [] "pkg.mod" "9.9"
    rfl (by decide)

/-- C8: the fallback walk terminates: whenever a dot remains, truncation
strictly decreases the length of the looked up name, and the number of
lookup attempts is at most the number of dot separated components. -/
theorem C8_termination (found : String → Bool) (name : String) :
    (walkAttempts found name).length ≤ numComponents name
    ∧ (hasDot name = true → (truncName name).length < name.length) := by
  constructor
  · cases hd : hasDot name with
    | false =>
      rw [walkAttempts,
        walkAttemptsF_noDot found _ name hd (Nat.succ_pos _)]
      simp [numComponents]
    | true =>
      have hlen := length_pos_of_hasDot name hd
      have hrec := walkAttemptsF_noDot found name.length
        (truncName name) (truncName_hasDot_false name) hlen
      have hcount : 0 < name.data.count '.' := by
        rw [hasDot, decide_eq_true_eq] at hd
        exact List.count_pos_iff.mpr hd
      by_cases hfound : found name = true
      · rw [walkAttempts, walkAttemptsF_succ]
        simp only [hfound, if_true, List.length_cons, List.length_nil,
          numComponents]
        omega
      · rw [walkAttempts, walkAttemptsF_succ, hrec]
        have h2 : (2 : Nat) ≤ name.data.count '.' + 1 := by omega
        simpa [hfound, hd, numComponents] using h2
  · exact fun h => truncName_length_lt name h

theorem C8_termination_witness :
    (walkAttempts (fun _ => false) "a.b").length ≤ numComponents "a.b"
    ∧ (truncName "a.b").length < "a.b".length :=
  ⟨(C8_termination (fun _ => false) "a.b").1,
   (C8_termination (fun _ => false) "a.b").2 (by decide)⟩

theorem C4_memoization_witness :
    Git.get_version genvTagged "p" [("p", "cached")]
      = (.ok "cached", [("p", "cached")], ⟨0, 0⟩)
    ∧ (Git.get_version genvTagged "q" []).2.2
      = ⟨1, if hasMarker (pstrip "v1.2.3-4-gabcdef").data then 1 else 0⟩
    ∧ keysNodup (Git.get_version genvTagged "q" []).2.1 :=
  ⟨C4_memoization.1 genvTagged "p" [("p", "cached")] "cached" rfl,
   (C4_memoization.2.1 genvTagged "q" [] "v1.2.3-4-gabcdef" rfl rfl).2,
   C4_memoization.2.2 genvTagged "q" [] List.nodup_nil⟩

/-- C6: with no associated module, version_from_frame returns the synthetic
unknown descriptor embedding file and line without raising, and the parser
maps None, any string with the unknown sentinel prefix, and in particular
every such synthetic descriptor to the fixed unknown tuple. -/
theorem C6_unknown_caller :
    (∀ f osenv denv genv memo, f.moduleName = none →
      version_from_frame f osenv denv genv memo
        = (.ok (some ("<unknown from " ++ f.filename ++ ":"
            ++ toString f.lineno ++ ">")), memo, ⟨0, 0, 0⟩))
    ∧ tupleize_version none = [[.str "unknown"]]
    ∧ (∀ s, pyStartswith s "<unknown" = true →
        tupleize_version (some s) = [[.str "unknown"]])
    ∧ (∀ (file : String) (line : Nat),
        tupleize_version (some ("<unknown from " ++ file ++ ":"
          ++ toString line ++ ">")) = [[.str "unknown"]]) := by
  refine ⟨?_, rfl, ?_, ?_⟩
  · intro f osenv denv genv memo h
    simp [version_from_frame, h]
  · intro u h
    simp [tupleize_version, h]
  · intro file line
    simp [tupleize_version, unknown_pre file line]

theorem C6_unknown_caller_witness :
    version_from_frame frameNoModule osenvNone denvNone genvFail []
      = (.ok (some ("<unknown from " ++ frameNoModule.filename ++ ":"
          ++ toString frameNoModule.lineno ++ ">")), [], ⟨0, 0, 0⟩)
    ∧ tupleize_version (some "<unknown xyz") = [[.str "unknown"]]
    ∧ tupleize_version (some ("<unknown from " ++ "f.py" ++ ":"
        ++ toString (5 : Nat) ++ ">")) = [[.str "unknown"]] :=
  ⟨C6_unknown_caller.1 frameNoModule osenvNone denvNone genvFail [] rfl,
   C6_unknown_caller.2.2.1 "<unknown xyz" (by decide),
   C6_unknown_caller.2.2.2 "f.py" 5⟩

/-- C3: the parser splits on dots and dashes keeping dashes as group
separators, normalizes numeric tokens to ints (leading zeros stripped, all
zero tokens to 0) and keeps other tokens as strings, and groups consecutive
tokens with each dash starting a new group, matching the worked examples. -/
theorem C3_tupleize :
    tupleize_version (some "1.0.3") = [[.num 1, .num 0, .num 3]]
    ∧ tupleize_version (some "1.0.3-dev")
        = [[.num 1, .num 0, .num 3], [.str "dev"]]
    ∧ tupleize_version (some "1.0.3-rc-5")
        = [[.num 1, .num 0, .num 3], [.str "rc"], [.num 5]]
    ∧ (∀ s, pyIsdigit s = false → try_fix_num s = .str s)
    ∧ (∀ s, pyIsdigit s = true → try_fix_num s = .num (digitsVal s.data))
    ∧ (∀ s, pyIsdigit s = true → s.data.all (fun c => c = '0') = true →
        try_fix_num s = .num 0) :=
  ⟨by decide, by decide, by decide,
   try_fix_num_str,
   try_fix_num_num,
   fun s h hz => by rw [try_fix_num_num s h, digitsVal_all_zero s.data hz]⟩

theorem C3_tupleize_witness :
    try_fix_num "abc" = .str "abc"
    ∧ try_fix_num "007" = .num (digitsVal "007".data)
    ∧ try_fix_num "000" = .num 0 :=
  ⟨C3_tupleize.2.2.2.1 "abc" (by decide),
   C3_tupleize.2.2.2.2.1 "007" (by decide),
   C3_tupleize.2.2.2.2.2 "000" (by decide) (by decide)⟩

/-- C10: every inner group the parser returns is nonempty, and an input
with no token characters (empty, or only dots and dashes) yields the empty
tuple rather than a tuple holding empty groups. -/
theorem C10_nonempty_groups :
    (∀ v, ∀ g ∈ tupleize_version v, g ≠ [])
    ∧ tupleize_version (some "") = []
    ∧ (∀ s, (∀ c ∈ s.data, c = '.' ∨ c = '-') →
        tupleize_version (some s) = []) := by
  refine ⟨?_, by decide, ?_⟩
  · intro v g hg
    cases v with
    | none =>
      rcases List.mem_singleton.mp hg with rfl
      simp
    | some u =>
      rw [tupleize_version] at hg
      by_cases hpre : pyStartswith u "<unknown" = true
      · rw [if_pos hpre] at hg
        rcases List.mem_singleton.mp hg with rfl
        simp
      · rw [if_neg hpre] at hg
        rw [List.mem_map] at hg
        obtain ⟨p, hp, rfl⟩ := hg
        rw [List.mem_filter] at hp
        exact pyGroupby_group_ne_nil _ p hp.1
  · intro u hall
    have hpre : pyStartswith u "<unknown" = false := by
      cases hsd : u.data with
      | nil =>
        rw [pyStartswith, hsd]
        rfl
      | cons c t =>
        have hc := hall c (by rw [hsd]; exact List.mem_cons_self c t)
        rw [pyStartswith, hsd]
        rcases hc with hc | hc <;> subst hc <;> rfl
    rw [tupleize_version, if_neg (by simp [hpre])]
    have htok : ∀ t ∈ (splitTokens u.data []).filter (fun x => x ≠ ""),
        t = "-" := by
      intro t ht
      rw [List.mem_filter] at ht
      rcases splitTokens_sep u.data hall t ht.1 with h | h
      · exact absurd h (by simpa using ht.2)
      · exact h
    have hdash : ∀ w ∈ ((splitTokens u.data []).filter
        (fun x => x ≠ "")).map try_fix_num, isDash w = true := by
      intro w hw
      rw [List.mem_map] at hw
      obtain ⟨t, ht, rfl⟩ := hw
      rw [htok t ht]
      rfl
    have hkeys := pyGroupby_key_true _ hdash
    have hfil : (pyGroupby (((splitTokens u.data []).filter
        (fun x => x ≠ "")).map try_fix_num)).filter (fun p => !p.1) = [] := by
      rw [List.filter_eq_nil_iff]
      intro p hp
      simp [hkeys p hp]
    show List.map Prod.snd (List.filter (fun p => !p.1)
      (pyGroupby (List.map try_fix_num (List.filter (fun x => x ≠ "")
        (splitTokens u.data []))))) = []
    rw [hfil]
    rfl

theorem C10_nonempty_groups_witness :
    ([AV.VTok.num 1, AV.VTok.num 0, AV.VTok.num 3] : List VTok) ≠ []
    ∧ tupleize_version (some ".-.-") = [] :=
  ⟨C10_nonempty_groups.1 (some "1.0.3-dev") [.num 1, .num 0, .num 3]
      (by decide),
   C10_nonempty_groups.2.2 ".-.-" (by decide)⟩

end AV
